import Mathlib

/-!
Verification of the nullable composite-to-domain mapping of the
testCustomType repository.

The program's core (file `testtype.go` and its companion source) consists of:
  * `Resolution` — the fully-populated domain struct (width, height, scan);
  * `resolutionDTO` — the transfer struct whose three fields are nullable
    pointers (`*int`, `*int`, `*rune`), embedded here as `Option` fields;
  * `resolutionDTO.AsResolution` — the defaulting conversion;
  * `Resolution.String` — the `fmt.Sprintf("[%d, %d] at %c", ...)` rendering;
  * the per-row branch of `main` that prints either
    `Got <rendered value>` or `No defined resolution`.

Go machine integers are embedded as `Int` (no arithmetic is performed on
them, so overflow is irrelevant); Go runes are embedded as `Char`;
nil-able pointers as `Option`.  Go's `%d` verb (decimal rendering with a
leading minus sign for negatives) is embedded by an explicit decimal
renderer `intDec`, and `Sprintf` by a small interpreter `sprintf` over the
format string's characters.
-/

/-- The domain type: `type Resolution struct { Width, Height int; Scan rune }`. -/
structure Resolution where
  Width : Int
  Height : Int
  Scan : Char
deriving DecidableEq, Repr

/-- The transfer type: `type resolutionDTO struct { Width, Height *int; Scan *rune }`;
a nil pointer is `none`. -/
structure resolutionDTO where
  Width : Option Int
  Height : Option Int
  Scan : Option Char
deriving DecidableEq, Repr

/-- `func (rdto resolutionDTO) AsResolution() Resolution`: each field is the
dereferenced pointer when non-nil, and the default (0, 0, `'P'`) when nil. -/
def resolutionDTO.AsResolution (rdto : resolutionDTO) : Resolution :=
  { Width :=
      match rdto.Width with
      | none => 0
      | some w => w
    Height :=
      match rdto.Height with
      | none => 0
      | some h => h
    Scan :=
      match rdto.Scan with
      | none => 'P'
      | some s => s }

/-- The decimal digit character for `d < 10` (code point `48 + d`). -/
def digitChar (d : Nat) : Char := Char.ofNat (48 + d)

/-- Decimal rendering of a natural number, most significant digit first:
the embedding of Go's `%d` verb on non-negative values. -/
def natDec (n : Nat) : List Char :=
  if n < 10 then [digitChar n]
  else natDec (n / 10) ++ [digitChar (n % 10)]
termination_by n
decreasing_by
  exact Nat.div_lt_self (by omega) (by omega)

/-- Decimal rendering of an integer: a leading `'-'` for negatives, as Go's
`%d` verb prints a Go `int`. -/
def intDec (i : Int) : List Char :=
  if i < 0 then '-' :: natDec (-i).toNat else natDec i.toNat

/-- A Go value passed as a `Sprintf` argument: an `int` or a `rune`. -/
inductive GoVal where
  | vint : Int → GoVal
  | vchar : Char → GoVal
deriving DecidableEq, Repr

/-- The rendering of one `Sprintf` verb: `%d` on an int, `%c` on a rune. -/
def formatVerb : Char → GoVal → List Char
  | 'd', GoVal.vint i => intDec i
  | 'c', GoVal.vchar c => [c]
  | _, _ => []

/-- The embedding of `fmt.Sprintf`: literal characters are copied, a `%`
followed by a verb consumes the next argument. -/
def sprintf : List Char → List GoVal → List Char
  | [], _ => []
  | '%' :: v :: rest, a :: args => formatVerb v a ++ sprintf rest args
  | c :: rest, args => c :: sprintf rest args

/-- `func (r Resolution) String() string`:
`fmt.Sprintf("[%d, %d] at %c", r.Width, r.Height, r.Scan)`. -/
def Resolution.String (r : Resolution) :=
  String.mk (sprintf "[%d, %d] at %c".toList
    [GoVal.vint r.Width, GoVal.vint r.Height, GoVal.vchar r.Scan])

/-- The per-row branch of `main`: a nil DTO pointer (whole composite null)
prints `No defined resolution`; otherwise the converted value is rendered
after `Got `. -/
def handleRow (dto : Option resolutionDTO) : String :=
  match dto with
  | some rdto => "Got " ++ (rdto.AsResolution).String
  | none => "No defined resolution"

/-- A pointer dereference: yields a value only when the pointer is non-nil
(a nil dereference would crash the program, embedded as `none`). -/
def deref {α : Type} (p : Option α) : Option α := p

/-- `AsResolution` re-run with every dereference routed through `deref`
under exactly the nil-guards the source has, so that `none` would signal a
nil dereference or any other failing branch. -/
def asResolutionRun (rdto : resolutionDTO) : Option Resolution := do
  let w ← if rdto.Width.isNone then some 0 else deref rdto.Width
  let h ← if rdto.Height.isNone then some 0 else deref rdto.Height
  let s ← if rdto.Scan.isNone then some 'P' else deref rdto.Scan
  some { Width := w, Height := h, Scan := s }

/-- The decimal digit characters of `natDec` all lie in the digit code-point
range 48..57. -/
theorem digitChar_toNat (d : Nat) (h : d < 10) : (digitChar d).toNat = 48 + d := by
  interval_cases d <;> decide

/-- Every character of `natDec n` is a decimal digit. -/
theorem natDec_digits (n : Nat) : ∀ c ∈ natDec n, 48 ≤ c.toNat ∧ c.toNat ≤ 57 := by
  induction n using Nat.strong_induction_on with
  | _ n ih =>
    intro c hc
    rw [natDec] at hc
    by_cases h : n < 10
    · rw [if_pos h] at hc
      simp only [List.mem_singleton] at hc
      subst hc
      rw [digitChar_toNat n h]
      omega
    · rw [if_neg h] at hc
      rcases List.mem_append.mp hc with hc | hc
      · exact ih (n / 10) (Nat.div_lt_self (by omega) (by omega)) c hc
      · simp only [List.mem_singleton] at hc
        subst hc
        rw [digitChar_toNat _ (Nat.mod_lt n (by omega))]
        omega

/-- Evaluating the digits of `natDec n` back as a base-10 numeral recovers
`n`, for any starting accumulator. -/
theorem natDec_foldl (n : Nat) : ∀ a : Nat,
    (natDec n).foldl (fun a c => a * 10 + (c.toNat - 48)) a
      = a * 10 ^ (natDec n).length + n := by
  induction n using Nat.strong_induction_on with
  | _ n ih =>
    intro a
    rw [natDec]
    by_cases h : n < 10
    · rw [if_pos h]
      simp only [List.foldl_cons, List.foldl_nil, List.length_singleton]
      rw [digitChar_toNat n h]
      omega
    · rw [if_neg h]
      rw [List.foldl_append, List.length_append]
      rw [ih (n / 10) (Nat.div_lt_self (by omega) (by omega)) a]
      simp only [List.foldl_cons, List.foldl_nil, List.length_singleton]
      rw [digitChar_toNat _ (Nat.mod_lt n (by omega))]
      rw [pow_succ]
      generalize 10 ^ (natDec (n / 10)).length = B
      generalize hab : a * B = c
      have h48 : (48 : Nat) + n % 10 - 48 = n % 10 := by omega
      rw [h48, ← Nat.mul_assoc, hab]
      omega

/-- Decimal rendering of naturals is injective. -/
theorem natDec_injective {m n : Nat} (h : natDec m = natDec n) : m = n := by
  have hm := natDec_foldl m 0
  have hn := natDec_foldl n 0
  rw [h] at hm
  simp only [Nat.zero_mul] at hm hn
  omega

/-- Every character of `intDec i` is the minus sign or a decimal digit. -/
theorem intDec_mem_toNat (i : Int) (c : Char) (hc : c ∈ intDec i) :
    c.toNat = 45 ∨ (48 ≤ c.toNat ∧ c.toNat ≤ 57) := by
  unfold intDec at hc
  by_cases hi : i < 0
  · rw [if_pos hi] at hc
    rcases List.mem_cons.mp hc with h | h
    · left; subst h; rfl
    · right; exact natDec_digits _ c h
  · rw [if_neg hi] at hc
    right; exact natDec_digits _ c hc

/-- Decimal rendering of integers is injective. -/
theorem intDec_injective {i j : Int} (h : intDec i = intDec j) : i = j := by
  unfold intDec at h
  by_cases hi : i < 0 <;> by_cases hj : j < 0
  · rw [if_pos hi, if_pos hj] at h
    have h2 := natDec_injective (List.tail_eq_of_cons_eq h)
    omega
  · rw [if_pos hi, if_neg hj] at h
    exfalso
    have hmem : '-' ∈ natDec j.toNat := by rw [← h]; exact List.mem_cons_self _ _
    have hd := natDec_digits j.toNat '-' hmem
    have h45 : ('-').toNat = 45 := rfl
    omega
  · rw [if_neg hi, if_pos hj] at h
    exfalso
    have hmem : '-' ∈ natDec i.toNat := by rw [h]; exact List.mem_cons_self _ _
    have hd := natDec_digits i.toNat '-' hmem
    have h45 : ('-').toNat = 45 := rfl
    omega
  · rw [if_neg hi, if_neg hj] at h
    have := natDec_injective h
    omega

/-- Splitting a character list at a delimiter absent from both prefixes is
unambiguous. -/
theorem append_cons_inj {x : Char} :
    ∀ {a₁ : List Char} {a₂ t₁ t₂ : List Char}, x ∉ a₁ → x ∉ a₂ →
      a₁ ++ x :: t₁ = a₂ ++ x :: t₂ → a₁ = a₂ ∧ t₁ = t₂ := by
  intro a₁
  induction a₁ with
  | nil =>
    intro a₂ t₁ t₂ h₁ h₂ h
    cases a₂ with
    | nil => simpa using h
    | cons b bs =>
      exfalso
      simp only [List.nil_append, List.cons_append, List.cons.injEq] at h
      exact h₂ (h.1 ▸ List.mem_cons_self _ _)
  | cons a as ih =>
    intro a₂ t₁ t₂ h₁ h₂ h
    cases a₂ with
    | nil =>
      exfalso
      simp only [List.cons_append, List.nil_append, List.cons.injEq] at h
      exact h₁ (h.1 ▸ List.mem_cons_self _ _)
    | cons b bs =>
      simp only [List.cons_append, List.cons.injEq] at h
      have h₃ : x ∉ as := fun hx => h₁ (List.mem_cons_of_mem _ hx)
      have h₄ : x ∉ bs := fun hx => h₂ (List.mem_cons_of_mem _ hx)
      obtain ⟨he, ht⟩ := ih h₃ h₄ h.2
      exact ⟨by rw [h.1, he], ht⟩

/-- The character list underlying a rendered `Resolution`. -/
theorem string_data (r : Resolution) :
    (Resolution.String r).data =
      '[' :: (intDec r.Width ++ (',' :: ' ' :: (intDec r.Height ++
        (']' :: ' ' :: 'a' :: 't' :: ' ' :: [r.Scan])))) := rfl

/-- The comma delimiter never occurs inside a rendered integer. -/
theorem comma_not_mem_intDec (i : Int) : ',' ∉ intDec i := by
  intro hmem
  have hd := intDec_mem_toNat i ',' hmem
  have h44 : (',').toNat = 44 := rfl
  omega

/-- The closing bracket never occurs inside a rendered integer. -/
theorem rbracket_not_mem_intDec (i : Int) : ']' ∉ intDec i := by
  intro hmem
  have hd := intDec_mem_toNat i ']' hmem
  have h93 : (']').toNat = 93 := rfl
  omega

/-- Two resolutions rendering to the same string are equal. -/
theorem string_inj_aux {r₁ r₂ : Resolution} (h : r₁.String = r₂.String) : r₁ = r₂ := by
  obtain ⟨w₁, h₁, s₁⟩ := r₁
  obtain ⟨w₂, h₂, s₂⟩ := r₂
  have hd := congrArg String.data h
  rw [string_data, string_data] at hd
  simp only [List.cons.injEq, true_and] at hd
  obtain ⟨hw, ht⟩ := append_cons_inj (comma_not_mem_intDec w₁) (comma_not_mem_intDec w₂) hd
  simp only [List.cons.injEq, true_and] at ht
  obtain ⟨hh, hs⟩ := append_cons_inj (rbracket_not_mem_intDec h₁) (rbracket_not_mem_intDec h₂) ht
  simp only [List.cons.injEq, true_and, List.cons.injEq] at hs
  exact by
    have := intDec_injective hw
    have := intDec_injective hh
    simp_all

/-- Claim C1: absent fields default to 0, 0, `'P'`; present fields carry
through unchanged. -/
theorem asResolution_defaults (rdto : resolutionDTO) :
    (rdto.Width = none → rdto.AsResolution.Width = 0) ∧
    (∀ w, rdto.Width = some w → rdto.AsResolution.Width = w) ∧
    (rdto.Height = none → rdto.AsResolution.Height = 0) ∧
    (∀ h, rdto.Height = some h → rdto.AsResolution.Height = h) ∧
    (rdto.Scan = none → rdto.AsResolution.Scan = 'P') ∧
    (∀ s, rdto.Scan = some s → rdto.AsResolution.Scan = s) := by
  obtain ⟨w, h, s⟩ := rdto
  refine ⟨?_, ?_, ?_, ?_, ?_, ?_⟩ <;>
    simp only [resolutionDTO.AsResolution] <;>
    first
      | (intro hyp; cases hyp; rfl)
      | (intro v hyp; cases hyp; rfl)

/-- Witness for C1 at the concrete input `{nil, 5, nil}`. -/
theorem asResolution_defaults_witness :
    (resolutionDTO.mk none (some 5) none).Width = none ∧
    (resolutionDTO.mk none (some 5) none).AsResolution.Width = 0 :=
  ⟨rfl, (asResolution_defaults (resolutionDTO.mk none (some 5) none)).1 rfl⟩

/-- Claim C3: an all-present transfer value converts verbatim, and converting the
transfer value rebuilt from a converted domain value gives it back. -/
theorem asResolution_verbatim :
    (∀ w h s, (resolutionDTO.mk (some w) (some h) (some s)).AsResolution
        = Resolution.mk w h s) ∧
    (∀ r : Resolution,
      (resolutionDTO.mk (some r.Width) (some r.Height) (some r.Scan)).AsResolution = r) := by
  constructor
  · intro w h s; rfl
  · intro r; obtain ⟨w, h, s⟩ := r; rfl

/-- Claim C4: the conversion is total: run with every pointer dereference guarded
exactly as in the source, it succeeds on every input and returns the value
`AsResolution` returns. -/
theorem asResolution_total (rdto : resolutionDTO) :
    asResolutionRun rdto = some rdto.AsResolution := by
  obtain ⟨w, h, s⟩ := rdto
  cases w <;> cases h <;> cases s <;> rfl

/-- Claim C5: a nil DTO pointer renders the distinct outcome
`No defined resolution`, and a present DTO renders `Got ` followed by the
converted value's rendering. -/
theorem handleRow_cases :
    handleRow none = "No defined resolution" ∧
    (∀ rdto, handleRow (some rdto) = "Got " ++ (rdto.AsResolution).String) := by
  exact ⟨rfl, fun _ => rfl⟩

/-- Claim C6: the conversion always yields all three fields set: each field of the
result is the present input value or the default (0, 0, `'P'`). -/
theorem asResolution_fully_populated (rdto : resolutionDTO) :
    rdto.AsResolution =
      Resolution.mk (rdto.Width.getD 0) (rdto.Height.getD 0) (rdto.Scan.getD 'P') := by
  obtain ⟨w, h, s⟩ := rdto
  cases w <;> cases h <;> cases s <;> rfl

/-- Claim C8: rendering is deterministic: equal domain values render equal. -/
theorem string_deterministic (r₁ r₂ : Resolution) (h : r₁ = r₂) :
    r₁.String = r₂.String := by
  cases h; rfl

/-- Witness for C8 at the concrete value `{10, 10, 'P'}`. -/
theorem string_deterministic_witness :
    Resolution.mk 10 10 'P' = Resolution.mk 10 10 'P' ∧
    (Resolution.mk 10 10 'P').String = (Resolution.mk 10 10 'P').String :=
  ⟨rfl, string_deterministic (Resolution.mk 10 10 'P') (Resolution.mk 10 10 'P') rfl⟩

/-- Claim C9: the conversion is not injective: the all-nil transfer value and the
all-present `{0, 0, 'P'}` transfer value are distinct yet convert to the
same domain value. -/
theorem asResolution_not_injective :
    (resolutionDTO.mk none none none).AsResolution
        = (resolutionDTO.mk (some 0) (some 0) (some 'P')).AsResolution ∧
    resolutionDTO.mk none none none ≠ resolutionDTO.mk (some 0) (some 0) (some 'P') := by
  exact ⟨rfl, by decide⟩

/-- Claim C2: the rendering is exactly the open bracket, the width, a
comma-space, the height, the literal text between bracket and scan
character, then the scan character; the example value renders to
`[10, 10] at P`. -/
theorem string_rendering :
    (∀ r : Resolution, r.String =
      "[" ++ String.mk (intDec r.Width) ++ ", " ++ String.mk (intDec r.Height)
        ++ "] at " ++ String.singleton r.Scan) ∧
    (Resolution.mk 10 10 'P').String = "[10, 10] at P" := by
  constructor
  · intro r
    apply String.ext
    simp [string_data, String.singleton]
  · apply String.ext
    simp [string_data, intDec, natDec, digitChar]

/-- Claim C7: negative integers pass through conversion and rendering
unvalidated: the transfer value with width -10 converts verbatim and
renders to `[-10, 10] at P`. -/
theorem negative_passthrough :
    (resolutionDTO.mk (some (-10)) (some 10) (some 'P')).AsResolution
        = Resolution.mk (-10) 10 'P' ∧
    (Resolution.mk (-10) 10 'P').String = "[-10, 10] at P" := by
  constructor
  · rfl
  · apply String.ext
    simp [string_data, intDec, natDec, digitChar]

/-- Claim C10: rendering is injective: distinct domain values render to
distinct strings, since the fixed delimiters unambiguously separate the two
integers and the scan character. -/
theorem string_injective (r₁ r₂ : Resolution) (h : r₁ ≠ r₂) :
    r₁.String ≠ r₂.String :=
  fun he => h (string_inj_aux he)

/-- Witness for C10 at the concrete pair of distinct values. -/
theorem string_injective_witness :
    Resolution.mk 0 0 'P' ≠ Resolution.mk 1 0 'P' ∧
    (Resolution.mk 0 0 'P').String ≠ (Resolution.mk 1 0 'P').String :=
  ⟨by decide, string_injective (Resolution.mk 0 0 'P') (Resolution.mk 1 0 'P') (by decide)⟩
